import Mathlib

/-!
# Verification of the `Expect` derive generator (`expect_macro_derive`)

This file gives a shallow embedding of the single generation routine
`expect_derive` of `src/lib.rs` and of the runtime behaviour of the methods it
emits, and proves the testable properties stated in the specification.

The Rust routine consumes a `DeriveInput`.  When its `data` is an enum it
produces, per variant, one method

* named `expect_<lowercased variant name>` (line 71 of the source),
* whose parameters mirror the variant's fields (declared names and types for
  named fields, `value_0, value_1, ...` for positional fields, none for unit
  variants),
* whose body matches `self` against the pattern
  `Name::Variant { f: attr_f, ... } if attr_f == f && ...`
  (named case, lines 113-115; binder idents are `attr_` followed by the
  lowercased field name, lines 97-104), or
  `Name::Variant(attr_0, ...) if attr_0 == value_0 && ...`
  (positional case, lines 135-152), or the bare `Name::Variant` for unit
  variants (lines 159-167),
* and returns `Some((bound fields))` / `None` (lines 181-188), unless the
  variant carries the `#[panic]` marker, in which case the method returns the
  bound fields directly and otherwise halts with
  `"Expected {:?} but got {:?}"` applied to a freshly constructed expected
  value and to `self` (lines 169-177).

Non-enum inputs make the routine halt with the fixed message
`"Expect can only be derived for enums"` (line 195), producing no output.

The embedding keeps the exact identifier computations of the source (they are
plain string computations) and interprets the emitted match arm with explicit
name resolution: pattern binders shadow the method parameters inside the
guard, exactly as in the host language.  Field values are drawn from an
arbitrary type with decidable equality, mirroring the requirement that every
field type support `==`; the debug rendering required of the enum for panic
variants is an explicit `render` function parameter.

`asciiLower` (character-wise `Char.toLower`) models the source's
`to_lowercase()`; the two agree on ASCII identifiers.
-/

/-- A Rust type, kept abstract: the generator copies type tokens verbatim and
never inspects them. -/
abbrev RustTy := String

/-- The three field styles of `syn::Fields`: named fields (`{ a: i32 }`),
positional fields (`(i32, i32)`), or a unit variant. -/
inductive FieldsDesc where
  | named : List (String × RustTy) → FieldsDesc
  | unnamed : List RustTy → FieldsDesc
  | unit : FieldsDesc
deriving DecidableEq, Repr

/-- One enum variant as the generator sees it: its identifier, whether the
`#[panic]` marker attribute is present (line 67-69 of the source), and its
fields. -/
structure EnumVariant where
  ident : String
  isPanic : Bool
  fields : FieldsDesc
deriving DecidableEq, Repr

/-- The `data` of a `syn::DeriveInput`: an enum with its variants, or a
struct, or a union (the two non-enum cases the source rejects wholesale). -/
inductive DeriveData where
  | enumData : List EnumVariant → DeriveData
  | structData : DeriveData
  | unionData : DeriveData
deriving DecidableEq, Repr

/-- The parsed derive input: the type's identifier and its data. -/
structure DeriveInput where
  ident : String
  data : DeriveData
deriving DecidableEq, Repr

/-- One generated method, recorded as the syntactic pieces the source emits:

* `fnName`     — the method identifier (`fn_name`, line 71);
* `params`     — the caller-facing parameter list (`fields`, as `name: ty`);
* `retTys`     — the component types of the returned tuple (`fields_ty`);
* `isPanic`    — which of the two bodies (lines 169-190) was chosen;
* `patVariant` — the variant identifier appearing in the match pattern;
* `binds`      — the pattern's binder identifiers (`fields_names`), listed in
                 declared field order;
* `guardPairs` — the guard's comparisons, as pairs (left ident, right ident),
                 `none` when the pattern carries no guard (unit variants);
* `retNames`   — the identifiers returned on success (`(#(#fields_names),*)`);
* `newArgs`    — the identifiers used to build the "expected" value in the
                 panic message (`new`, lines 117-119 and 154-156). -/
structure Method where
  fnName : String
  params : List (String × RustTy)
  retTys : List RustTy
  isPanic : Bool
  patVariant : String
  binds : List String
  guardPairs : Option (List (String × String))
  retNames : List String
  newArgs : List String
deriving DecidableEq, Repr

/-- The caller-facing parameter identifiers of a generated method. -/
def paramNames (m : Method) : List String := m.params.map Prod.fst

/-- The single `impl` block the generator hands back: all methods are woven
into one additive block `impl Name { ... }` (lines 197-201). -/
structure ImplBlock where
  implName : String
  methods : List Method
deriving DecidableEq, Repr

/-- Model of Rust's `to_lowercase()`: lowercase every character.  The two
agree on ASCII identifiers. -/
def asciiLower (s : String) : String := ⟨s.data.map Char.toLower⟩

/-- Binder identifier for a named field (lines 97-104): `attr_` followed by
the lowercased field name. -/
def namedBindName (f : String) : String := "attr_" ++ asciiLower f

/-- Parameter identifier for the positional field at index `n` (line 127). -/
def posParamName (n : Nat) : String := "value_" ++ Nat.repr n

/-- Binder identifier for the positional field at index `n` (line 136). -/
def posBindName (n : Nat) : String := "attr_" ++ Nat.repr n

/-- The parameter list built by the positional loop (lines 123-133): the
counter `n` starts at `0` and increases by one per field. -/
def posFieldsAux : Nat → List RustTy → List (String × RustTy)
  | _, [] => []
  | n, ty :: tys => (posParamName n, ty) :: posFieldsAux (n + 1) tys

/-- The `names` vector of the positional loop: `value_0, value_1, ...`. -/
def posNamesAux : Nat → List RustTy → List String
  | _, [] => []
  | n, _ :: tys => posParamName n :: posNamesAux (n + 1) tys

/-- The `fields_names` vector of the positional loop (lines 134-141):
`attr_0, attr_1, ...`. -/
def posAttrsAux : Nat → List RustTy → List String
  | _, [] => []
  | n, _ :: tys => posBindName n :: posAttrsAux (n + 1) tys

/-- Number of fields of a variant. -/
def fieldArity : FieldsDesc → Nat
  | .named fs => fs.length
  | .unnamed tys => tys.length
  | .unit => 0

/-- The per-variant generation step (lines 64-191 of the source), recording
the emitted method.  `_enumName` is the enum identifier; it appears in the
emitted pattern as the path qualifier `Name::Variant` and plays no further
role. -/
def genVariant (_enumName : String) (v : EnumVariant) : Method :=
  match v.fields with
  | .named fs =>
      let names := fs.map Prod.fst
      let binds := names.map namedBindName
      { fnName := "expect_" ++ asciiLower v.ident
        params := fs
        retTys := fs.map Prod.snd
        isPanic := v.isPanic
        patVariant := v.ident
        binds := binds
        guardPairs := some (binds.zip names)
        retNames := binds
        newArgs := names }
  | .unnamed tys =>
      let pnames := posNamesAux 0 tys
      let binds := posAttrsAux 0 tys
      { fnName := "expect_" ++ asciiLower v.ident
        params := posFieldsAux 0 tys
        retTys := tys
        isPanic := v.isPanic
        patVariant := v.ident
        binds := binds
        guardPairs := some (binds.zip pnames)
        retNames := binds
        newArgs := pnames }
  | .unit =>
      { fnName := "expect_" ++ asciiLower v.ident
        params := []
        retTys := []
        isPanic := v.isPanic
        patVariant := v.ident
        binds := []
        guardPairs := none
        retNames := []
        newArgs := [] }

/-- The fixed message of line 195. -/
def enumErrorMsg : String := "Expect can only be derived for enums"

/-- The whole generation routine: one method per variant for enums, woven
into a single `impl` block; for any non-enum input the routine halts (line
195) before emitting anything, modelled as `Except.error`. -/
def expect_derive (d : DeriveInput) : Except String ImplBlock :=
  match d.data with
  | .enumData vs => .ok ⟨d.ident, vs.map (genVariant d.ident)⟩
  | _ => .error enumErrorMsg

/-! ## Runtime semantics of a generated method

A runtime value of the derived enum is its variant identifier together with
its field values in declared order.  Field values live in an arbitrary type
`α` with decidable equality. -/

/-- A runtime value of the derived enum. -/
structure EnumValue (α : Type) where
  variant : String
  vals : List α
deriving DecidableEq, Repr

/-- Identifier lookup in an environment, first match wins.  The match-arm
environment is the pattern binders in front of the method parameters, so
binders shadow parameters of the same name, as in the host language. -/
def lookupEnv {α : Type} : List (String × α) → String → Option α
  | [], _ => none
  | (k, a) :: e, x => if k = x then some a else lookupEnv e x

/-- Resolve a list of identifiers; `none` if any of them is unbound (an
unbound identifier in the emitted code would be rejected by the host
compiler, so this case is unreachable for well-formed calls). -/
def lookupAll {α : Type} (env : List (String × α)) : List String → Option (List α)
  | [] => some []
  | x :: xs =>
      match lookupEnv env x, lookupAll env xs with
      | some a, some as' => some (a :: as')
      | _, _ => none

/-- The guard `b₁ == r₁ && b₂ == r₂ && ...`: every comparison resolves both
sides in the match-arm environment and compares the results. -/
def guardHolds {α : Type} [DecidableEq α] (env : List (String × α))
    (pairs : List (String × String)) : Bool :=
  pairs.all fun p =>
    match lookupEnv env p.1, lookupEnv env p.2 with
    | some a, some b => decide (a = b)
    | _, _ => false

/-- The pattern-binder layer of the match-arm environment: the i-th binder
receives the i-th stored field value. -/
def bindEnv {α : Type} (m : Method) (w : EnumValue α) : List (String × α) :=
  m.binds.zip w.vals

/-- The parameter layer of the environment: the i-th parameter receives the
i-th caller-supplied argument. -/
def paramEnv {α : Type} (m : Method) (args : List α) : List (String × α) :=
  (paramNames m).zip args

/-- Whether the emitted match arm selects `w`: the variant identifiers agree,
the pattern's arity agrees with the value's (in the host language this is
enforced by typing), and the guard, if present, holds in the environment in
which the pattern binders shadow the parameters. -/
def patternMatches {α : Type} [DecidableEq α] (m : Method) (w : EnumValue α)
    (args : List α) : Bool :=
  decide (w.variant = m.patVariant) && decide (w.vals.length = m.binds.length) &&
    match m.guardPairs with
    | none => true
    | some pairs => guardHolds (bindEnv m w ++ paramEnv m args) pairs

/-- A method halts with `panic!("Expected {:?} but got {:?}", new, self)`
where `new` rebuilds the expected value from the identifiers of `newArgs`,
resolved against the parameters only (the halting arm binds nothing).
`render` stands for the `Debug` rendering the enum must provide. -/
def panicMessage {α : Type} (render : EnumValue α → String) (m : Method)
    (w : EnumValue α) (args : List α) : String :=
  "Expected " ++
    render ⟨m.patVariant, (lookupAll (paramEnv m args) m.newArgs).getD []⟩ ++
    " but got " ++ render w

/-- Body of a method generated without the `#[panic]` marker (lines
181-188): `Some` of the bound fields on a match, `None` otherwise. -/
def runNonPanicBody {α : Type} [DecidableEq α] (m : Method) (w : EnumValue α)
    (args : List α) : Option (List α) :=
  if patternMatches m w args then
    lookupAll (bindEnv m w ++ paramEnv m args) m.retNames
  else none

/-- Outcome of a `#[panic]`-marked method: the tuple returned directly, or a
halt with its message. -/
inductive PanicResult (α : Type) where
  | ok : List α → PanicResult α
  | panicked : String → PanicResult α
deriving DecidableEq, Repr

/-- Body of a method generated with the `#[panic]` marker (lines 169-177):
the bound fields returned directly on a match, a halt with the descriptive
message otherwise.  (The inner `none` branch is unreachable: the returned
identifiers are the pattern's own binders.) -/
def runPanicBody {α : Type} [DecidableEq α] (render : EnumValue α → String)
    (m : Method) (w : EnumValue α) (args : List α) : PanicResult α :=
  if patternMatches m w args then
    match lookupAll (bindEnv m w ++ paramEnv m args) m.retNames with
    | some tup => .ok tup
    | none => .panicked (panicMessage render m w args)
  else .panicked (panicMessage render m w args)

/-- The two possible method results, tagged by which body was emitted. -/
inductive MethodOutput (α : Type) where
  | optional : Option (List α) → MethodOutput α
  | direct : PanicResult α → MethodOutput α
deriving DecidableEq, Repr

/-- Run a generated method on the value `w` with arguments `args`: the
`isPanic` flag chosen at generation time (line 169) selects the body. -/
def runGeneratedMethod {α : Type} [DecidableEq α] (render : EnumValue α → String)
    (m : Method) (w : EnumValue α) (args : List α) : MethodOutput α :=
  if m.isPanic then .direct (runPanicBody render m w args)
  else .optional (runNonPanicBody m w args)

/-! ## Well-formedness of the emitted identifiers

The generated method only behaves as intended when the emitted binder
identifiers are pairwise distinct (the host compiler rejects a pattern
binding one identifier twice), none of them collides with a parameter
identifier (a colliding binder would shadow that parameter inside the
guard), the parameter identifiers are pairwise distinct (the host compiler
guarantees this, since field names are unique within a variant), and the
guard comparison list is not empty-but-present (a named or positional
variant with zero fields makes the source emit a dangling `if` with no
condition, which the host compiler rejects). -/

/-- Conditions under which the emitted match arm is well-formed host code. -/
def WellFormedMethod (m : Method) : Prop :=
  m.binds.Nodup ∧ (paramNames m).Nodup ∧
    (∀ b ∈ m.binds, b ∉ paramNames m) ∧ m.guardPairs ≠ some []

instance (m : Method) : Decidable (WellFormedMethod m) := by
  unfold WellFormedMethod; infer_instance

/-- `sub` occurs contiguously inside `s`. -/
abbrev strContains (s sub : String) : Prop := sub.data <:+: s.data

/-- Whether `s` begins with the reserved binder marker `attr_`. -/
def startsWithAttr (s : String) : Bool := "attr_".data.isPrefixOf s.data

/-- Boolean disjointness of two identifier lists. -/
def listDisjoint (xs ys : List String) : Bool :=
  xs.all fun x => ys.all fun y => decide (x ≠ y)

/-! ## Concrete inputs used by witnesses and counterexamples -/

/-- A benign named-fields variant: `Baz { a: i32, b: i32 }`, not marked. -/
def exNamedOk : EnumVariant := ⟨"Baz", false, .named [("a", "i32"), ("b", "i32")]⟩

/-- A named-fields variant whose second field name `attr_x` equals the
binder identifier generated for its first field `x`. -/
def exNamedBad : EnumVariant := ⟨"Baz", false, .named [("x", "i32"), ("attr_x", "i32")]⟩

/-- The same colliding field names on a `#[panic]`-marked variant `Bar`. -/
def exPanicBad : EnumVariant := ⟨"Bar", true, .named [("x", "i32"), ("attr_x", "i32")]⟩

/-- A benign `#[panic]`-marked variant: `Bar { a: i32, b: i32 }`. -/
def exPanicOk : EnumVariant := ⟨"Bar", true, .named [("a", "i32"), ("b", "i32")]⟩

/-- A concrete debug rendering for integer-valued enum values. -/
def renderShow (w : EnumValue Int) : String :=
  w.variant ++ " " ++ toString w.vals

/-! ## Identifier facts -/

theorem startsWithAttr_append (s : String) : startsWithAttr ("attr_" ++ s) = true := by
  unfold startsWithAttr
  rw [String.data_append]
  have h : ∀ (l t : List Char), l.isPrefixOf (l ++ t) = true := by
    intro l t
    induction l with
    | nil => simp [List.isPrefixOf]
    | cons x xs ih => simp [List.isPrefixOf, ih]
  exact h _ _

theorem namedBindName_ne (f g : String) (h : startsWithAttr g = false) :
    namedBindName f ≠ g := by
  intro he
  rw [namedBindName] at he
  rw [← he, startsWithAttr_append] at h
  exact absurd h (by decide)

theorem attr_ne_value (s t : String) : ("attr_" ++ s) ≠ ("value_" ++ t) := by
  intro h
  have hd := congrArg String.data h
  rw [String.data_append, String.data_append] at hd
  have h1 : "attr_".data = 'a' :: "ttr_".data := rfl
  have h2 : "value_".data = 'v' :: "alue_".data := rfl
  rw [h1, h2] at hd
  simp only [List.cons_append] at hd
  injection hd with hc _
  exact absurd hc (by decide)

theorem posBindName_is_attr (n : Nat) : posBindName n = "attr_" ++ Nat.repr n := rfl

theorem posParamName_is_value (n : Nat) : posParamName n = "value_" ++ Nat.repr n := rfl

theorem posAttrsAux_shape (tys : List RustTy) :
    ∀ n, ∀ x ∈ posAttrsAux n tys, ∃ k, x = "attr_" ++ Nat.repr k := by
  induction tys with
  | nil => intro n x hx; exact absurd hx (by simp [posAttrsAux])
  | cons ty tys ih =>
    intro n x hx
    rcases List.mem_cons.mp hx with h | h
    · exact ⟨n, h⟩
    · exact ih (n + 1) x h

theorem posNamesAux_shape (tys : List RustTy) :
    ∀ n, ∀ x ∈ posNamesAux n tys, ∃ k, x = "value_" ++ Nat.repr k := by
  induction tys with
  | nil => intro n x hx; exact absurd hx (by simp [posNamesAux])
  | cons ty tys ih =>
    intro n x hx
    rcases List.mem_cons.mp hx with h | h
    · exact ⟨n, h⟩
    · exact ih (n + 1) x h

/-! ## Environment-lookup lemmas -/

theorem lookupEnv_append_left {α : Type} {e₁ e₂ : List (String × α)} {k : String} {a : α}
    (h : lookupEnv e₁ k = some a) : lookupEnv (e₁ ++ e₂) k = some a := by
  induction e₁ with
  | nil => exact absurd h (by simp [lookupEnv])
  | cons p e ih =>
    obtain ⟨k', a'⟩ := p
    rw [List.cons_append]
    rw [lookupEnv] at h ⊢
    by_cases hk : k' = k
    · rwa [if_pos hk] at h ⊢
    · rw [if_neg hk] at h ⊢
      exact ih h

theorem lookupEnv_append_right {α : Type} {e₁ e₂ : List (String × α)} {k : String}
    (h : lookupEnv e₁ k = none) : lookupEnv (e₁ ++ e₂) k = lookupEnv e₂ k := by
  induction e₁ with
  | nil => rfl
  | cons p e ih =>
    obtain ⟨k', a'⟩ := p
    rw [List.cons_append]
    rw [lookupEnv] at h ⊢
    by_cases hk : k' = k
    · rw [if_pos hk] at h; exact absurd h (by simp)
    · rw [if_neg hk] at h ⊢
      exact ih h

theorem lookupEnv_zip_not_mem {α : Type} :
    ∀ (keys : List String) (vals : List α) (k : String), k ∉ keys →
    lookupEnv (keys.zip vals) k = none := by
  intro keys
  induction keys with
  | nil => intro vals k _; rfl
  | cons k' ks ih =>
    intro vals k hk
    cases vals with
    | nil => rfl
    | cons v vs =>
      rw [List.zip_cons_cons, lookupEnv]
      rw [if_neg (show ¬ k' = k by intro he; rw [he] at hk; exact hk (List.mem_cons_self k ks))]
      exact ih vs k (fun hm => hk (List.mem_cons_of_mem _ hm))

theorem lookupEnv_zip_get {α : Type} :
    ∀ (keys : List String) (vals : List α), keys.Nodup → keys.length = vals.length →
    ∀ (i : Nat) (h1 : i < keys.length) (h2 : i < vals.length),
    lookupEnv (keys.zip vals) keys[i] = some vals[i] := by
  intro keys
  induction keys with
  | nil => intro vals _ _ i h1; exact absurd h1 (by simp)
  | cons k ks ih =>
    intro vals hnd hl i h1 h2
    cases vals with
    | nil => simp at hl
    | cons v vs =>
      cases i with
      | zero => simp [lookupEnv]
      | succ j =>
        have hj1 : j < ks.length := by simp at h1; omega
        have hj2 : j < vs.length := by simp at h2; omega
        have hk : k ∉ ks := (List.nodup_cons.mp hnd).1
        have hne : k ≠ ks[j] := fun he => hk (he ▸ List.getElem_mem hj1)
        rw [List.zip_cons_cons]
        rw [List.getElem_cons_succ, List.getElem_cons_succ, lookupEnv, if_neg hne]
        exact ih vs (List.nodup_cons.mp hnd).2 (by simpa using hl) j hj1 hj2

theorem lookupAll_of_pointwise {α : Type} (env : List (String × α)) :
    ∀ (keys : List String) (vals : List α), keys.length = vals.length →
    (∀ (i : Nat) (h1 : i < keys.length) (h2 : i < vals.length),
      lookupEnv env keys[i] = some vals[i]) →
    lookupAll env keys = some vals := by
  intro keys
  induction keys with
  | nil =>
    intro vals hl _
    cases vals with
    | nil => rfl
    | cons v vs => simp at hl
  | cons k ks ih =>
    intro vals hl hp
    cases vals with
    | nil => simp at hl
    | cons v vs =>
      have h0 := hp 0 (by simp) (by simp)
      rw [List.getElem_cons_zero, List.getElem_cons_zero] at h0
      have hrest := ih vs (by simpa using hl) (fun i hi1 hi2 => by
        have hs1 : i + 1 < (k :: ks).length := by simp; omega
        have hs2 : i + 1 < (v :: vs).length := by simp; omega
        have := hp (i + 1) hs1 hs2
        rwa [List.getElem_cons_succ, List.getElem_cons_succ] at this)
      rw [lookupAll, h0, hrest]

/-! ## Resolution inside the combined match-arm environment -/

theorem env_lookup_bind {α : Type} (binds pnames : List String) (vals args : List α)
    (hbn : binds.Nodup) (hlb : binds.length = vals.length)
    (i : Nat) (h1 : i < binds.length) (h2 : i < vals.length) :
    lookupEnv (binds.zip vals ++ pnames.zip args) binds[i] = some vals[i] :=
  lookupEnv_append_left (lookupEnv_zip_get binds vals hbn hlb i h1 h2)

theorem env_lookup_param {α : Type} (binds pnames : List String) (vals args : List α)
    (hpn : pnames.Nodup) (hlp : pnames.length = args.length)
    (hdisj : ∀ b ∈ binds, b ∉ pnames)
    (i : Nat) (h1 : i < pnames.length) (h2 : i < args.length) :
    lookupEnv (binds.zip vals ++ pnames.zip args) pnames[i] = some args[i] := by
  have hnb : pnames[i] ∉ binds := fun hm => hdisj _ hm (List.getElem_mem h1)
  rw [lookupEnv_append_right (lookupEnv_zip_not_mem binds vals _ hnb)]
  exact lookupEnv_zip_get pnames args hpn hlp i h1 h2

/-- The emitted guard `attr₁ == p₁ && ...` holds exactly when the stored field
values coincide with the caller-supplied arguments, provided the binder
identifiers are distinct from each other and from the parameter identifiers
(otherwise a binder captures an identifier of the guard and the equivalence
fails; see the counterexamples below). -/
theorem guardHolds_zip_iff {α : Type} [DecidableEq α] (binds pnames : List String)
    (vals args : List α)
    (hbn : binds.Nodup) (hpn : pnames.Nodup)
    (hdisj : ∀ b ∈ binds, b ∉ pnames)
    (hlb : binds.length = vals.length) (hlp : pnames.length = args.length)
    (hbp : binds.length = pnames.length) :
    (guardHolds (binds.zip vals ++ pnames.zip args) (binds.zip pnames) = true) ↔
      vals = args := by
  unfold guardHolds
  rw [List.all_eq_true]
  constructor
  · intro h
    apply List.ext_getElem (by omega)
    intro i hi1 hi2
    have hib : i < binds.length := by omega
    have hip : i < pnames.length := by omega
    have hiz : i < (binds.zip pnames).length := by rw [List.length_zip]; omega
    have hmem : (binds[i], pnames[i]) ∈ binds.zip pnames := by
      rw [List.mem_iff_getElem]
      exact ⟨i, hiz, by rw [List.getElem_zip]⟩
    have hc := h _ hmem
    simp only at hc
    rw [env_lookup_bind binds pnames vals args hbn hlb i hib hi1] at hc
    rw [env_lookup_param binds pnames vals args hpn hlp hdisj i hip hi2] at hc
    exact of_decide_eq_true hc
  · intro h p hp
    rw [List.mem_iff_getElem] at hp
    obtain ⟨i, hiz, hpe⟩ := hp
    have hib : i < binds.length := by rw [List.length_zip] at hiz; omega
    have hip : i < pnames.length := by rw [List.length_zip] at hiz; omega
    have hiv : i < vals.length := by omega
    have hia : i < args.length := by omega
    rw [List.getElem_zip] at hpe
    subst hpe
    simp only
    rw [env_lookup_bind binds pnames vals args hbn hlb i hib hiv]
    rw [env_lookup_param binds pnames vals args hpn hlp hdisj i hip hia]
    apply decide_eq_true
    subst h
    rfl

/-! ## Behaviour of the two generated bodies -/

/-- The emitted match arm selects `w` exactly when `w` is of the method's
variant and stores exactly the caller-supplied argument values, provided the
method's identifiers are well formed.  The `guardPairs` hypothesis covers the
two shapes the generator emits: a guard comparing each binder with the
same-index parameter, or no guard with no binders (unit variants). -/
theorem patternMatches_spec {α : Type} [DecidableEq α] (m : Method)
    (hg : m.guardPairs = some (m.binds.zip (paramNames m)) ∨
          (m.guardPairs = none ∧ m.binds = []))
    (hbn : m.binds.Nodup) (hpn : (paramNames m).Nodup)
    (hdisj : ∀ b ∈ m.binds, b ∉ paramNames m)
    (hbp : m.binds.length = (paramNames m).length)
    (w : EnumValue α) (args : List α)
    (hw : w.vals.length = m.binds.length) (ha : args.length = m.binds.length) :
    (patternMatches m w args = true) ↔
      (w.variant = m.patVariant ∧ w.vals = args) := by
  unfold patternMatches bindEnv paramEnv
  rcases hg with hgs | ⟨hgn, hb0⟩
  · rw [hgs]
    have hiff := guardHolds_zip_iff m.binds (paramNames m) w.vals args hbn hpn hdisj
      hw.symm (by omega) hbp
    constructor
    · intro h
      simp only [Bool.and_eq_true, decide_eq_true_eq] at h
      exact ⟨h.1.1, hiff.mp h.2⟩
    · intro hc
      simp only [Bool.and_eq_true, decide_eq_true_eq]
      exact ⟨⟨hc.1, hw⟩, hiff.mpr hc.2⟩
  · rw [hgn]
    have hb0' : m.binds.length = 0 := by rw [hb0]; rfl
    have hv0 : w.vals = [] := List.length_eq_zero.mp (by omega)
    have ha0 : args = [] := List.length_eq_zero.mp (by omega)
    constructor
    · intro h
      simp only [Bool.and_eq_true, decide_eq_true_eq] at h
      exact ⟨h.1.1, hv0.trans ha0.symm⟩
    · intro hc
      simp only [Bool.and_eq_true, decide_eq_true_eq]
      exact ⟨⟨hc.1, hw⟩, trivial⟩

/-- On a match, the success arm `(#(#fields_names),*)` returns exactly the
stored field values, in declared order. -/
theorem retNames_resolve {α : Type} (m : Method)
    (hr : m.retNames = m.binds) (hbn : m.binds.Nodup)
    (w : EnumValue α) (args : List α) (hw : w.vals.length = m.binds.length) :
    lookupAll (bindEnv m w ++ paramEnv m args) m.retNames = some w.vals := by
  rw [hr]
  exact lookupAll_of_pointwise _ m.binds w.vals hw.symm
    (fun i h1 h2 => env_lookup_bind m.binds (paramNames m) w.vals args hbn hw.symm i h1 h2)

/-- Body of a non-`#[panic]` method: `Some` of the stored values exactly when
the variant matches and every stored field equals its argument, `None` in
every other case. -/
theorem runNonPanicBody_spec {α : Type} [DecidableEq α] (m : Method)
    (hg : m.guardPairs = some (m.binds.zip (paramNames m)) ∨
          (m.guardPairs = none ∧ m.binds = []))
    (hr : m.retNames = m.binds)
    (hbn : m.binds.Nodup) (hpn : (paramNames m).Nodup)
    (hdisj : ∀ b ∈ m.binds, b ∉ paramNames m)
    (hbp : m.binds.length = (paramNames m).length)
    (w : EnumValue α) (args : List α)
    (hw : w.vals.length = m.binds.length) (ha : args.length = m.binds.length) :
    runNonPanicBody m w args =
      if w.variant = m.patVariant ∧ w.vals = args then some w.vals else none := by
  have hpm := patternMatches_spec m hg hbn hpn hdisj hbp w args hw ha
  unfold runNonPanicBody
  split
  · next hpmt => rw [retNames_resolve m hr hbn w args hw, if_pos (hpm.mp hpmt)]
  · next hpmf => rw [if_neg (fun hc => hpmf (hpm.mpr hc))]

/-- The halting message, resolved: `new` rebuilds the expected value from the
caller-supplied arguments (the identifiers of `new` are the parameters,
resolved in an arm that binds nothing). -/
theorem panicMessage_eq {α : Type} (render : EnumValue α → String) (m : Method)
    (w : EnumValue α) (args : List α)
    (hnew : m.newArgs = paramNames m) (hpn : (paramNames m).Nodup)
    (ha : args.length = (paramNames m).length) :
    panicMessage render m w args =
      "Expected " ++ render ⟨m.patVariant, args⟩ ++ " but got " ++ render w := by
  unfold panicMessage paramEnv
  rw [hnew, lookupAll_of_pointwise _ (paramNames m) args ha.symm
    (fun i h1 h2 => lookupEnv_zip_get (paramNames m) args hpn ha.symm i h1 h2)]
  rfl

/-- Body of a `#[panic]` method: the stored values returned directly exactly
when the variant matches and every stored field equals its argument, a halt
with the descriptive message in every other case. -/
theorem runPanicBody_spec {α : Type} [DecidableEq α] (render : EnumValue α → String)
    (m : Method)
    (hg : m.guardPairs = some (m.binds.zip (paramNames m)) ∨
          (m.guardPairs = none ∧ m.binds = []))
    (hr : m.retNames = m.binds) (hnew : m.newArgs = paramNames m)
    (hbn : m.binds.Nodup) (hpn : (paramNames m).Nodup)
    (hdisj : ∀ b ∈ m.binds, b ∉ paramNames m)
    (hbp : m.binds.length = (paramNames m).length)
    (w : EnumValue α) (args : List α)
    (hw : w.vals.length = m.binds.length) (ha : args.length = m.binds.length) :
    runPanicBody render m w args =
      if w.variant = m.patVariant ∧ w.vals = args then .ok w.vals
      else .panicked ("Expected " ++ render ⟨m.patVariant, args⟩ ++ " but got " ++ render w) := by
  have hpm := patternMatches_spec m hg hbn hpn hdisj hbp w args hw ha
  have hmsg := panicMessage_eq render m w args hnew hpn (by omega)
  unfold runPanicBody
  split
  · next hpmt =>
    rw [retNames_resolve m hr hbn w args hw, if_pos (hpm.mp hpmt)]
  · next hpmf =>
    rw [hmsg, if_neg (fun hc => hpmf (hpm.mpr hc))]

/-- A value of a different variant never matches, whatever its arity: the
variant test of the pattern fails first. -/
theorem patternMatches_false_of_variant_ne {α : Type} [DecidableEq α] (m : Method)
    (w : EnumValue α) (args : List α) (h : w.variant ≠ m.patVariant) :
    patternMatches m w args = false := by
  unfold patternMatches
  rw [decide_eq_false h]
  simp

/-- A value whose field count differs from the pattern's arity never matches
(in the host language no such value of the method's own variant even exists;
this covers values of other shapes). -/
theorem patternMatches_false_of_arity_ne {α : Type} [DecidableEq α] (m : Method)
    (w : EnumValue α) (args : List α) (h : w.vals.length ≠ m.binds.length) :
    patternMatches m w args = false := by
  unfold patternMatches
  rw [decide_eq_false h]
  simp

/-- When the arm rejects, the non-`#[panic]` body falls to `None`. -/
theorem runNonPanicBody_none_of_no_match {α : Type} [DecidableEq α] (m : Method)
    (w : EnumValue α) (args : List α) (h : patternMatches m w args = false) :
    runNonPanicBody m w args = none := by
  unfold runNonPanicBody
  rw [h]
  simp

/-- When the arm rejects, the `#[panic]` body halts with its message. -/
theorem runPanicBody_panics_of_no_match {α : Type} [DecidableEq α]
    (render : EnumValue α → String) (m : Method)
    (w : EnumValue α) (args : List α) (h : patternMatches m w args = false) :
    runPanicBody render m w args = .panicked (panicMessage render m w args) := by
  unfold runPanicBody
  rw [h]
  simp

/-! ## Shape of the generated method, per field style -/

theorem posFieldsAux_map_fst : ∀ (n : Nat) (tys : List RustTy),
    (posFieldsAux n tys).map Prod.fst = posNamesAux n tys := by
  intro n tys
  induction tys generalizing n with
  | nil => rfl
  | cons ty tys ih => simp [posFieldsAux, posNamesAux, ih]

theorem posNamesAux_length : ∀ (n : Nat) (tys : List RustTy),
    (posNamesAux n tys).length = tys.length := by
  intro n tys
  induction tys generalizing n with
  | nil => rfl
  | cons ty tys ih => simp [posNamesAux, ih]

theorem posAttrsAux_length : ∀ (n : Nat) (tys : List RustTy),
    (posAttrsAux n tys).length = tys.length := by
  intro n tys
  induction tys generalizing n with
  | nil => rfl
  | cons ty tys ih => simp [posAttrsAux, ih]

theorem genVariant_isPanic (N : String) (v : EnumVariant) :
    (genVariant N v).isPanic = v.isPanic := by
  obtain ⟨i, p, f⟩ := v
  cases f <;> rfl

theorem genVariant_patVariant (N : String) (v : EnumVariant) :
    (genVariant N v).patVariant = v.ident := by
  obtain ⟨i, p, f⟩ := v
  cases f <;> rfl

theorem genVariant_fnName (N : String) (v : EnumVariant) :
    (genVariant N v).fnName = "expect_" ++ asciiLower v.ident := by
  obtain ⟨i, p, f⟩ := v
  cases f <;> rfl

theorem genVariant_retNames (N : String) (v : EnumVariant) :
    (genVariant N v).retNames = (genVariant N v).binds := by
  obtain ⟨i, p, f⟩ := v
  cases f <;> rfl

theorem genVariant_newArgs (N : String) (v : EnumVariant) :
    (genVariant N v).newArgs = paramNames (genVariant N v) := by
  obtain ⟨i, p, f⟩ := v
  cases f with
  | named fs => rfl
  | unnamed tys =>
    show posNamesAux 0 tys = (posFieldsAux 0 tys).map Prod.fst
    rw [posFieldsAux_map_fst]
  | unit => rfl

theorem genVariant_guard_spec (N : String) (v : EnumVariant) :
    (genVariant N v).guardPairs =
        some ((genVariant N v).binds.zip (paramNames (genVariant N v))) ∨
      ((genVariant N v).guardPairs = none ∧ (genVariant N v).binds = []) := by
  obtain ⟨i, p, f⟩ := v
  cases f with
  | named fs => left; rfl
  | unnamed tys =>
    left
    show some ((posAttrsAux 0 tys).zip (posNamesAux 0 tys)) =
      some ((posAttrsAux 0 tys).zip ((posFieldsAux 0 tys).map Prod.fst))
    rw [posFieldsAux_map_fst]
  | unit => right; exact ⟨rfl, rfl⟩

theorem genVariant_binds_length (N : String) (v : EnumVariant) :
    (genVariant N v).binds.length = fieldArity v.fields := by
  obtain ⟨i, p, f⟩ := v
  cases f with
  | named fs => simp [genVariant, fieldArity]
  | unnamed tys =>
    show (posAttrsAux 0 tys).length = tys.length
    exact posAttrsAux_length 0 tys
  | unit => rfl

theorem genVariant_paramNames_length (N : String) (v : EnumVariant) :
    (paramNames (genVariant N v)).length = fieldArity v.fields := by
  obtain ⟨i, p, f⟩ := v
  cases f with
  | named fs => simp [genVariant, paramNames, fieldArity]
  | unnamed tys =>
    show ((posFieldsAux 0 tys).map Prod.fst).length = tys.length
    rw [posFieldsAux_map_fst]
    exact posNamesAux_length 0 tys
  | unit => rfl

/-! ## Containment helpers for the halting message -/

theorem strContains_append_middle (p mid q : String) :
    strContains (p ++ mid ++ q) mid := by
  refine ⟨p.data, q.data, ?_⟩
  rw [String.data_append, String.data_append]

theorem strContains_append_right (p mid : String) :
    strContains (p ++ mid) mid := by
  refine ⟨p.data, [], ?_⟩
  rw [String.data_append]
  exact List.append_nil _

/-! ## The claims -/

/-- Claim C1, counterexample.  The claim says: for every non-fatal shape,
calling the extractor with exactly the stored field values returns a present
optional of those values.  The variant `Baz { x: i32, attr_x: i32 }` refutes
it: the binder generated for field `x` is `attr_x`, which shadows the
parameter `attr_x` inside the guard, so the guard compares the stored
`attr_x` field against the stored `x` field instead of against the caller's
argument.  On the value `Baz { x: 1, attr_x: 2 }`, the call
`expect_baz(1, 2)` — exactly the stored values — returns `None`. -/
theorem claim1_counterexample :
    runGeneratedMethod renderShow (genVariant "Foo" exNamedBad) ⟨"Baz", [1, 2]⟩ [1, 2] =
        .optional none ∧
      runGeneratedMethod renderShow (genVariant "Foo" exNamedBad) ⟨"Baz", [1, 2]⟩ [1, 2] ≠
        .optional (some [1, 2]) := by
  decide

/-- Claim C1, amended: for every non-fatal shape whose generated identifiers
are well formed (binders pairwise distinct, binders disjoint from the
parameters, parameters pairwise distinct, guard not empty-but-present —
all of which hold for ordinary lowercase field names avoiding the reserved
`attr_` marker), invoking the extractor on a value of that shape with
exactly the stored field values returns a present optional containing
exactly those values in declared field order. -/
theorem claim1_theorem {α : Type} [DecidableEq α] (render : EnumValue α → String)
    (N : String) (v : EnumVariant) (vals : List α)
    (hp : v.isPanic = false)
    (hwf : WellFormedMethod (genVariant N v))
    (hlen : vals.length = fieldArity v.fields) :
    runGeneratedMethod render (genVariant N v) ⟨v.ident, vals⟩ vals =
      .optional (some vals) := by
  obtain ⟨hbn, hpn, hdisj, -⟩ := hwf
  have hbl := genVariant_binds_length N v
  have hpl := genVariant_paramNames_length N v
  have hs := runNonPanicBody_spec (genVariant N v) (genVariant_guard_spec N v)
    (genVariant_retNames N v) hbn hpn hdisj (by omega)
    ⟨v.ident, vals⟩ vals (by simpa using by omega) (by omega)
  rw [runGeneratedMethod, genVariant_isPanic, hp, if_neg (by simp)]
  rw [hs, if_pos ⟨(genVariant_patVariant N v).symm, rfl⟩]

/-- Claim C1, witness: on `Baz { a: i32, b: i32 }` holding `(1, 2)`, the call
`expect_baz(1, 2)` returns `Some((1, 2))`. -/
theorem claim1_witness :
    runGeneratedMethod renderShow (genVariant "Foo" exNamedOk) ⟨"Baz", [1, 2]⟩ [1, 2] =
      .optional (some [1, 2]) :=
  claim1_theorem renderShow "Foo" exNamedOk [1, 2] (by decide) (by decide) (by decide)

/-- Claim C2, counterexample.  The claim says: for every non-fatal shape,
calling the extractor with any argument differing from the stored field
returns an empty optional.  On `Baz { x: i32, attr_x: i32 }` holding
`Baz { x: 1, attr_x: 1 }`, the call `expect_baz(1, 999)` — whose second
argument differs from the stored `1` — returns `Some((1, 1))`, because the
captured guard never consults the second argument. -/
theorem claim2_counterexample :
    runGeneratedMethod renderShow (genVariant "Foo" exNamedBad) ⟨"Baz", [1, 1]⟩ [1, 999] =
        .optional (some [1, 1]) ∧
      runGeneratedMethod renderShow (genVariant "Foo" exNamedBad) ⟨"Baz", [1, 1]⟩ [1, 999] ≠
        .optional none := by
  decide

/-- Claim C2, amended: for every non-fatal shape whose generated identifiers
are well formed, invoking the extractor on a value of a different shape —
any value, of any arity — or with arguments differing from the stored field
values, returns an empty optional; the two mismatch causes are
indistinguishable, both conclusions being the same `none`. -/
theorem claim2_theorem {α : Type} [DecidableEq α] (render : EnumValue α → String)
    (N : String) (v : EnumVariant) (w : EnumValue α) (args : List α)
    (hp : v.isPanic = false)
    (hwf : WellFormedMethod (genVariant N v))
    (ha : args.length = fieldArity v.fields) :
    (w.variant ≠ v.ident →
      runGeneratedMethod render (genVariant N v) w args = .optional none) ∧
    (w.vals ≠ args →
      runGeneratedMethod render (genVariant N v) w args = .optional none) := by
  obtain ⟨hbn, hpn, hdisj, -⟩ := hwf
  have hbl := genVariant_binds_length N v
  have hpl := genVariant_paramNames_length N v
  have hbody : ∀ r : Option (List α), runNonPanicBody (genVariant N v) w args = r →
      runGeneratedMethod render (genVariant N v) w args = .optional r := by
    intro r hr
    rw [runGeneratedMethod, genVariant_isPanic, hp, if_neg (by simp), hr]
  constructor
  · intro hvne
    exact hbody none (runNonPanicBody_none_of_no_match _ w args
      (patternMatches_false_of_variant_ne _ w args
        (fun he => hvne (he.trans (genVariant_patVariant N v)))))
  · intro hane
    by_cases hlen : w.vals.length = (genVariant N v).binds.length
    · have hs := runNonPanicBody_spec (genVariant N v) (genVariant_guard_spec N v)
        (genVariant_retNames N v) hbn hpn hdisj (by omega) w args hlen (by omega)
      exact hbody none (by rw [hs, if_neg (fun hc => hane hc.2)])
    · exact hbody none (runNonPanicBody_none_of_no_match _ w args
        (patternMatches_false_of_arity_ne _ w args hlen))

/-- Claim C2, witness: on `Baz { a: i32, b: i32 }`, the cross-shape call on
the unit value `Qux` and a wrong-value call on a genuine `Baz` value both
return `None`. -/
theorem claim2_witness :
    runGeneratedMethod renderShow (genVariant "Foo" exNamedOk) ⟨"Qux", []⟩ [5, 6] =
        .optional none ∧
      runGeneratedMethod renderShow (genVariant "Foo" exNamedOk) ⟨"Baz", [1, 2]⟩ [9, 2] =
        .optional none :=
  ⟨ ( claim2_theorem renderShow "Foo" exNamedOk ⟨"Qux", []⟩ [5, 6]
      (by decide) (by decide) (by decide)).1 (by decide),
   ( claim2_theorem renderShow "Foo" exNamedOk ⟨"Baz", [1, 2]⟩ [9, 2]
      (by decide) (by decide) (by decide)).2 (by decide)⟩

/-- Claim C3, counterexample.  The claim says: for every fatal-marked shape,
any mismatch (wrong shape or differing field value) halts execution.  On the
`#[panic]`-marked variant `Bar { x: i32, attr_x: i32 }` holding
`Bar { x: 1, attr_x: 1 }`, the call `expect_bar(1, 999)` — whose second
argument differs from the stored value — does not halt: the captured guard
accepts and the method returns `(1, 1)` directly. -/
theorem claim3_counterexample :
    runGeneratedMethod renderShow (genVariant "Foo" exPanicBad) ⟨"Bar", [1, 1]⟩ [1, 999] =
      .direct (.ok [1, 1]) := by
  decide

/-- Claim C3, amended: for every fatal-marked shape whose generated
identifiers are well formed, the extractor returns the tuple of stored field
values directly (no optional wrapper) when the value is of that shape and
every field equals the corresponding argument; on any mismatch — a value of
a different shape, of any arity, or a differing field value — it halts, and
the halt message contains both the rendering of the expected shape built
from the expected values and the rendering of the actual value. -/
theorem claim3_theorem {α : Type} [DecidableEq α] (render : EnumValue α → String)
    (N : String) (v : EnumVariant) (w : EnumValue α) (args : List α)
    (hp : v.isPanic = true)
    (hwf : WellFormedMethod (genVariant N v))
    (ha : args.length = fieldArity v.fields) :
    (w.variant = v.ident ∧ w.vals = args →
      runGeneratedMethod render (genVariant N v) w args = .direct (.ok args)) ∧
    (w.variant ≠ v.ident ∨ w.vals ≠ args →
      runGeneratedMethod render (genVariant N v) w args =
          .direct (.panicked
            ("Expected " ++ render ⟨v.ident, args⟩ ++ " but got " ++ render w)) ∧
        strContains ("Expected " ++ render ⟨v.ident, args⟩ ++ " but got " ++ render w)
          (render ⟨v.ident, args⟩) ∧
        strContains ("Expected " ++ render ⟨v.ident, args⟩ ++ " but got " ++ render w)
          (render w)) := by
  obtain ⟨hbn, hpn, hdisj, -⟩ := hwf
  have hbl := genVariant_binds_length N v
  have hpl := genVariant_paramNames_length N v
  have hpv := genVariant_patVariant N v
  have hbody : ∀ r : PanicResult α, runPanicBody render (genVariant N v) w args = r →
      runGeneratedMethod render (genVariant N v) w args = .direct r := by
    intro r hr
    rw [runGeneratedMethod, genVariant_isPanic, hp, if_pos rfl, hr]
  have hmsg := panicMessage_eq render (genVariant N v) w args
    (genVariant_newArgs N v) hpn (by omega)
  rw [hpv] at hmsg
  constructor
  · intro hc
    have hw' : w.vals.length = (genVariant N v).binds.length := by rw [hc.2]; omega
    have hs := runPanicBody_spec render (genVariant N v) (genVariant_guard_spec N v)
      (genVariant_retNames N v) (genVariant_newArgs N v) hbn hpn hdisj (by omega)
      w args hw' (by omega)
    rw [hpv] at hs
    exact hbody _ (by rw [hs, if_pos hc, hc.2])
  · intro hc
    have hfalse : patternMatches (genVariant N v) w args = false := by
      rcases hc with h | h
      · exact patternMatches_false_of_variant_ne _ w args (fun he => h (he.trans hpv))
      · by_cases hlen : w.vals.length = (genVariant N v).binds.length
        · have hpm := patternMatches_spec (genVariant N v) (genVariant_guard_spec N v)
            hbn hpn hdisj (by omega) w args hlen (by omega)
          rcases Bool.eq_false_or_eq_true (patternMatches (genVariant N v) w args)
            with hb | hb
          · exact absurd (hpm.mp hb).2 h
          · exact hb
        · exact patternMatches_false_of_arity_ne _ w args hlen
    refine ⟨?_, ?_, ?_⟩
    · exact hbody _ (by
        rw [runPanicBody_panics_of_no_match render _ w args hfalse, hmsg])
    · have := strContains_append_middle "Expected " (render ⟨v.ident, args⟩)
        (" but got " ++ render w)
      rwa [← String.append_assoc] at this
    · exact strContains_append_right _ (render w)

/-- Claim C3, witness: calling the `#[panic]`-marked two-field `Bar { a, b }`
extractor on the unit value `Qux` — a value of a different shape and a
different arity — halts with the message built from the expected and actual
renderings. -/
theorem claim3_witness :
    runGeneratedMethod renderShow (genVariant "Foo" exPanicOk) ⟨"Qux", []⟩ [1, 2] =
      .direct (.panicked
        ("Expected " ++ renderShow ⟨"Bar", [1, 2]⟩ ++ " but got " ++ renderShow ⟨"Qux", []⟩)) :=
  ( ( claim3_theorem renderShow "Foo" exPanicOk ⟨"Qux", []⟩ [1, 2]
      (by decide) (by decide) (by decide)).2 (Or.inl (by decide))).1

/-- Claim C4, counterexample.  The claim says the generation error names the
offending type.  For the struct input named `Foo` the routine halts with the
fixed message `"Expect can only be derived for enums"`, which does not
contain `Foo`. -/
theorem claim4_counterexample :
    expect_derive ⟨"Foo", DeriveData.structData⟩ = .error enumErrorMsg ∧
      ¬ strContains enumErrorMsg "Foo" :=
  ⟨rfl, by decide⟩

/-- Claim C4, amended: for every non-enum input (struct or union) generation
fails unconditionally with no output at all, but the reported error is the
fixed message `"Expect can only be derived for enums"`, identical for every
input type — it does not name the offending type. -/
theorem claim4_theorem (N M : String) :
    expect_derive ⟨N, DeriveData.structData⟩ = .error enumErrorMsg ∧
    expect_derive ⟨N, DeriveData.unionData⟩ = .error enumErrorMsg ∧
    expect_derive ⟨N, DeriveData.structData⟩ = expect_derive ⟨M, DeriveData.structData⟩ ∧
    expect_derive ⟨N, DeriveData.unionData⟩ = expect_derive ⟨M, DeriveData.unionData⟩ :=
  ⟨rfl, rfl, rfl, rfl⟩

/-- Claim C5, confirmed: every generated method is named `expect_` followed
by the lowercased variant name, while the variant identifier used in the
emitted match pattern — the one that decides shape identity at runtime — is
the original, unfolded one. -/
theorem claim5_theorem (N : String) (vs : List EnumVariant) (v : EnumVariant) :
    expect_derive ⟨N, DeriveData.enumData vs⟩ = .ok ⟨N, vs.map (genVariant N)⟩ ∧
    (genVariant N v).fnName = "expect_" ++ asciiLower v.ident ∧
    (genVariant N v).patVariant = v.ident :=
  ⟨rfl, genVariant_fnName N v, genVariant_patVariant N v⟩

/-- Claim C6, counterexample.  The claim says every pattern-binding
identifier is distinct from every caller-facing parameter identifier of the
same method.  On `Baz { x: i32, attr_x: i32 }` the binder generated for the
field `x` is `attr_x`, which is also the parameter identifier of the second
field, so the binder shadows that parameter inside the guard. -/
theorem claim6_counterexample :
    "attr_x" ∈ (genVariant "Foo" exNamedBad).binds ∧
    "attr_x" ∈ paramNames (genVariant "Foo" exNamedBad) ∧
    listDisjoint (genVariant "Foo" exNamedBad).binds
      (paramNames (genVariant "Foo" exNamedBad)) = false := by
  decide

/-- Claim C6, amended: the binder identifiers are namespaced by the reserved
`attr_` marker, so they are distinct from every parameter identifier
provided no declared field name itself begins with `attr_` (named fields);
for positional fields the binders `attr_i` and parameters `value_j` are
unconditionally disjoint. -/
theorem claim6_theorem (N ident : String) (isP : Bool)
    (fs : List (String × RustTy)) (tys : List RustTy)
    (h : ∀ p ∈ fs, startsWithAttr p.1 = false) :
    listDisjoint (genVariant N ⟨ident, isP, FieldsDesc.named fs⟩).binds
      (paramNames (genVariant N ⟨ident, isP, FieldsDesc.named fs⟩)) = true ∧
    listDisjoint (genVariant N ⟨ident, isP, FieldsDesc.unnamed tys⟩).binds
      (paramNames (genVariant N ⟨ident, isP, FieldsDesc.unnamed tys⟩)) = true := by
  constructor
  · show listDisjoint ((fs.map Prod.fst).map namedBindName) (fs.map Prod.fst) = true
    unfold listDisjoint
    rw [List.all_eq_true]
    intro b hb
    rw [List.all_eq_true]
    intro y hy
    apply decide_eq_true
    obtain ⟨f, hf, rfl⟩ := List.mem_map.mp hb
    obtain ⟨p, hp, rfl⟩ := List.mem_map.mp hy
    exact namedBindName_ne f p.1 (h p hp)
  · show listDisjoint (posAttrsAux 0 tys) ((posFieldsAux 0 tys).map Prod.fst) = true
    rw [posFieldsAux_map_fst]
    unfold listDisjoint
    rw [List.all_eq_true]
    intro b hb
    rw [List.all_eq_true]
    intro y hy
    apply decide_eq_true
    obtain ⟨k, rfl⟩ := posAttrsAux_shape tys 0 b hb
    obtain ⟨j, rfl⟩ := posNamesAux_shape tys 0 y hy
    exact attr_ne_value (Nat.repr k) (Nat.repr j)

/-- Claim C6, witness: on the ordinary variants `Baz { a, b }` and
`Baz(i32, i32)`, every binder identifier avoids every parameter
identifier. -/
theorem claim6_witness :
    listDisjoint (genVariant "Foo" ⟨"Baz", false, FieldsDesc.named [("a", "i32"), ("b", "i32")]⟩).binds
      (paramNames (genVariant "Foo" ⟨"Baz", false, FieldsDesc.named [("a", "i32"), ("b", "i32")]⟩)) = true ∧
    listDisjoint (genVariant "Foo" ⟨"Baz", false, FieldsDesc.unnamed ["i32", "i32"]⟩).binds
      (paramNames (genVariant "Foo" ⟨"Baz", false, FieldsDesc.unnamed ["i32", "i32"]⟩)) = true :=
  ⟨ ( claim6_theorem "Foo" "Baz" false [("a", "i32"), ("b", "i32")] ["i32", "i32"] (by decide)).1,
   ( claim6_theorem "Foo" "Baz" false [("a", "i32"), ("b", "i32")] ["i32", "i32"] (by decide)).2⟩

/-- Claim C7, confirmed: for every unit variant the generated extractor has
no parameters beyond `self`, its pattern carries no guard (no field
comparison at all), and the non-fatal form invoked on a value of that shape
returns a present optional holding the unit value (the empty tuple). -/
theorem claim7_theorem {α : Type} [DecidableEq α] (render : EnumValue α → String)
    (N ident : String) :
    (genVariant N ⟨ident, false, FieldsDesc.unit⟩).params = [] ∧
    (genVariant N ⟨ident, false, FieldsDesc.unit⟩).guardPairs = none ∧
    runGeneratedMethod render (genVariant N ⟨ident, false, FieldsDesc.unit⟩)
      ⟨ident, []⟩ [] = .optional (some []) := by
  refine ⟨rfl, rfl, ?_⟩
  simp [runGeneratedMethod, genVariant, runNonPanicBody, patternMatches,
    bindEnv, paramEnv, lookupAll]

/-- Claim C8, confirmed: for every enum input, generation emits exactly one
extractor per variant, in declaration order, and hands all of them back as
one bundle — a single `impl` block attached to the original type. -/
theorem claim8_theorem (N : String) (vs : List EnumVariant) :
    expect_derive ⟨N, DeriveData.enumData vs⟩ = .ok ⟨N, vs.map (genVariant N)⟩ ∧
    List.Forall₂
      (fun m v => m.patVariant = v.ident ∧
        m.fnName = "expect_" ++ asciiLower v.ident ∧ m.isPanic = v.isPanic)
      (vs.map (genVariant N)) vs := by
  refine ⟨rfl, ?_⟩
  induction vs with
  | nil => exact List.Forall₂.nil
  | cons v vs ih =>
    exact List.Forall₂.cons
      ⟨genVariant_patVariant N v, genVariant_fnName N v, genVariant_isPanic N v⟩ ih

/-- Claim C9, confirmed: generation succeeds for every enum input, whatever
its number of variants — the zero-variant enum yields an empty bundle and a
one-variant enum a single method — while the not-an-enum failure fires
exactly for the struct and union inputs. -/
theorem claim9_theorem (N : String) (vs : List EnumVariant) (v : EnumVariant) :
    expect_derive ⟨N, DeriveData.enumData vs⟩ = .ok ⟨N, vs.map (genVariant N)⟩ ∧
    (vs.map (genVariant N)).length = vs.length ∧
    expect_derive ⟨N, DeriveData.enumData []⟩ = .ok ⟨N, []⟩ ∧
    expect_derive ⟨N, DeriveData.enumData [v]⟩ = .ok ⟨N, [genVariant N v]⟩ ∧
    expect_derive ⟨N, DeriveData.structData⟩ = .error enumErrorMsg ∧
    expect_derive ⟨N, DeriveData.unionData⟩ = .error enumErrorMsg :=
  ⟨rfl, by simp, rfl, rfl, rfl, rfl⟩

/-- Claim C10, confirmed: whenever a `#[panic]`-marked extractor halts, the
"expected" half of its message is the rendering of a fresh value of the
method's variant built from the caller-supplied arguments of that very call
(so it varies with the arguments, and the rendering capability is demanded
of the enum value type itself, here the explicit `render` parameter). -/
theorem claim10_theorem {α : Type} [DecidableEq α] (render : EnumValue α → String)
    (N : String) (v : EnumVariant) (w : EnumValue α) (args : List α)
    (hp : v.isPanic = true)
    (hpn : (paramNames (genVariant N v)).Nodup)
    (ha : args.length = fieldArity v.fields)
    (hnm : patternMatches (genVariant N v) w args = false) :
    runGeneratedMethod render (genVariant N v) w args =
      .direct (.panicked
        ("Expected " ++ render ⟨v.ident, args⟩ ++ " but got " ++ render w)) := by
  have hpl := genVariant_paramNames_length N v
  have hmsg := panicMessage_eq render (genVariant N v) w args
    (genVariant_newArgs N v) hpn (by omega)
  rw [runGeneratedMethod, genVariant_isPanic, hp, if_pos rfl, runPanicBody,
    hnm]
  rw [if_neg (by simp), hmsg, genVariant_patVariant]

/-- Claim C10, witness: the halt message of a concrete failing call renders
the expected value built from that call's arguments next to the actual
value. -/
theorem claim10_witness :
    runGeneratedMethod renderShow (genVariant "Foo" exPanicOk) ⟨"Baz", [7]⟩ [5, 6] =
      .direct (.panicked
        ("Expected " ++ renderShow ⟨"Bar", [5, 6]⟩ ++ " but got " ++ renderShow ⟨"Baz", [7]⟩)) :=
  claim10_theorem renderShow "Foo" exPanicOk ⟨"Baz", [7]⟩ [5, 6]
    (by decide) (by decide) (by decide) (by decide)
